import Mathlib

/-!
A shallow embedding of the `ratel-cli` tool (`src/main.rs`) of the
cdd-framework repository: the integrity ledger (`check_integrity`,
`certify_modifications`, the `init` subcommand), the scenario parser
and the audit orchestrator (`execute_full_audit`), together with the
SHA-256 digest used by `calculate_hash`.

Rust `panic!`/`expect`/`unwrap` sites and `std::process::exit` are
modelled as explicit error values (`Except`); the filesystem is an
association list from path to content, with the `ratel.yaml` ledger
file held as a distinguished, already-(de)serialized slot (YAML text
round-tripping by `serde_yaml` is external machinery per the spec).
-/

namespace Ratel

/-! ## SHA-256 (the `sha2` crate behind `calculate_hash`) -/

/-- Truncation to a 32-bit word. -/
def w32 (n : Nat) : Nat := n % 4294967296

/-- Right rotation of a 32-bit word. -/
def rotr (k x : Nat) : Nat := w32 ((x >>> k) ||| (x <<< (32 - k)))

def bsig0 (x : Nat) : Nat := (rotr 2 x) ^^^ (rotr 13 x) ^^^ (rotr 22 x)

def bsig1 (x : Nat) : Nat := (rotr 6 x) ^^^ (rotr 11 x) ^^^ (rotr 25 x)

def ssig0 (x : Nat) : Nat := (rotr 7 x) ^^^ (rotr 18 x) ^^^ (x >>> 3)

def ssig1 (x : Nat) : Nat := (rotr 17 x) ^^^ (rotr 19 x) ^^^ (x >>> 10)

def chf (x y z : Nat) : Nat := (x &&& y) ^^^ ((x ^^^ 4294967295) &&& z)

def maj (x y z : Nat) : Nat := (x &&& y) ^^^ (x &&& z) ^^^ (y &&& z)

/-- The 64 SHA-256 round constants (FIPS 180-4), written in decimal. -/
def sha256K : List Nat :=
  [1116352408, 1899447441, 3049323471, 3921009573, 961987163,
   1508970993, 2453635748, 2870763221, 3624381080, 310598401,
   607225278, 1426881987, 1925078388, 2162078206, 2614888103,
   3248222580, 3835390401, 4022224774, 264347078, 604807628,
   770255983, 1249150122, 1555081692, 1996064986, 2554220882,
   2821834349, 2952996808, 3210313671, 3336571891, 3584528711,
   113926993, 338241895, 666307205, 773529912, 1294757372,
   1396182291, 1695183700, 1986661051, 2177026350, 2456956037,
   2730485921, 2820302411, 3259730800, 3345764771, 3516065817,
   3600352804, 4094571909, 275423344, 430227734, 506948616,
   659060556, 883997877, 958139571, 1322822218, 1537002063,
   1747873779, 1955562222, 2024104815, 2227730452, 2361852424,
   2428436474, 2756734187, 3204031479, 3329325298]

/-- The SHA-256 initial hash state (FIPS 180-4), written in decimal. -/
def sha256H0 : List Nat :=
  [1779033703, 3144134277, 1013904242, 2773480762,
   1359893119, 2600822924, 528734635, 1541459225]

/-- `k` big-endian bytes of `n`. -/
def beBytes (k n : Nat) : List Nat :=
  (List.range k).map (fun i => (n >>> (8 * (k - 1 - i))) &&& 255)

/-- SHA-256 message padding of a byte sequence. -/
def padBytes (msg : List Nat) : List Nat :=
  let L := msg.length
  let zeros := (64 - ((L + 9) % 64)) % 64
  msg ++ [128] ++ List.replicate zeros 0 ++ beBytes 8 (8 * L)

/-- Split a byte list into chunks of size `sz` (fuel-driven). -/
def chunksGo (sz : Nat) : Nat → List Nat → List (List Nat)
  | 0, _ => []
  | _, [] => []
  | fuel + 1, l => l.take sz :: chunksGo sz fuel (l.drop sz)

def chunks (sz : Nat) (l : List Nat) : List (List Nat) := chunksGo sz l.length l

/-- Four big-endian bytes to one 32-bit word. -/
def word4 (l : List Nat) : Nat := l.foldl (fun a b => a * 256 + b) 0

/-- Extend the 16-word block to the 64-word message schedule. -/
def sched : Nat → List Nat → List Nat
  | 0, ws => ws
  | r + 1, ws =>
    let n := ws.length
    let v := w32 (ssig1 (ws.getD (n - 2) 0) + ws.getD (n - 7) 0 +
                  ssig0 (ws.getD (n - 15) 0) + ws.getD (n - 16) 0)
    sched r (ws ++ [v])

/-- One round of the SHA-256 compression function on state `[a,b,c,d,e,f,g,h]`. -/
def compressRound (st : List Nat) (ki wi : Nat) : List Nat :=
  let a := st.getD 0 0
  let b := st.getD 1 0
  let c := st.getD 2 0
  let d := st.getD 3 0
  let e := st.getD 4 0
  let f := st.getD 5 0
  let g := st.getD 6 0
  let h := st.getD 7 0
  let t1 := w32 (h + bsig1 e + chf e f g + ki + wi)
  let t2 := w32 (bsig0 a + maj a b c)
  [w32 (t1 + t2), a, b, c, w32 (d + t1), e, f, g]

/-- Compress one 64-byte block into the running hash state. -/
def compressBlock (h : List Nat) (block : List Nat) : List Nat :=
  let ws := sched 48 ((chunks 4 block).map word4)
  let st := (List.range 64).foldl
    (fun st i => compressRound st (sha256K.getD i 0) (ws.getD i 0)) h
  List.zipWith (fun x y => w32 (x + y)) h st

/-- SHA-256 of a byte sequence, as 32 bytes. -/
def sha256 (msg : List Nat) : List Nat :=
  let hs := (chunks 64 (padBytes msg)).foldl compressBlock sha256H0
  ((hs.map (beBytes 4)).flatten)

/-- Lowercase hex digit. -/
def hexDigit (n : Nat) : Char :=
  if n < 10 then Char.ofNat (48 + n) else Char.ofNat (87 + n)

/-- Two lowercase hex digits of a byte. -/
def byteHex (b : Nat) : List Char := [hexDigit (b / 16), hexDigit (b % 16)]

/-- UTF-8 encoding of one code point. -/
def utf8Encode (n : Nat) : List Nat :=
  if n < 128 then [n]
  else if n < 2048 then [192 ||| (n >>> 6), 128 ||| (n &&& 63)]
  else if n < 65536 then
    [224 ||| (n >>> 12), 128 ||| ((n >>> 6) &&& 63), 128 ||| (n &&& 63)]
  else
    [240 ||| (n >>> 18), 128 ||| ((n >>> 12) &&& 63),
     128 ||| ((n >>> 6) &&& 63), 128 ||| (n &&& 63)]

/-- The bytes of a string (UTF-8), as Rust's `content.as_bytes()`. -/
def strBytes (s : String) : List Nat := (s.data.map (fun c => utf8Encode c.toNat)).flatten

/-- `calculate_hash` (main.rs:191-195): SHA-256 of the content's bytes,
rendered as 64 lowercase hex characters (`format!("{:x}", ...)`). -/
def calculate_hash (content : String) : String :=
  (((sha256 (strBytes content)).map byteHex).flatten).asString

/-! ## Data model: ledger, filesystem -/

/-- `RatelConfig` (main.rs:18-26), the persisted integrity ledger.
`DateTime<Utc>` timestamps are modelled as `Nat`; the `HashMap` of
expert hashes as an association list in iteration order. -/
structure RatelConfig where
  version : String
  project_type : String
  context : String
  initialized_at : Nat
  customized_at : Option Nat
  expert_hashes : List (String × String)
deriving DecidableEq, Repr

/-- The content of the `ratel.yaml` slot as seen through `serde_yaml`:
either unparsable text (`serde_yaml::from_str` fails, an `unwrap` panic
in the source) or a parsed `RatelConfig`. -/
inductive LedgerFile
  | corrupt
  | valid (config : RatelConfig)
deriving DecidableEq, Repr

/-- The ambient filesystem: the `ratel.yaml` ledger file (a
distinguished slot, already (de)serialized) and the other files as an
association list from path to content. -/
structure World where
  ledger : Option LedgerFile
  files : List (String × String)
deriving DecidableEq, Repr

/-- `fs::read_to_string`: the content at `path`, if present. -/
def readFile (w : World) (path : String) : Option String :=
  (w.files.find? (fun e => e.1 == path)).map (fun e => e.2)

/-- `fs::write`: replace the content at `path`, or create the file. -/
def writeFile (files : List (String × String)) (path content : String) :
    List (String × String) :=
  if files.any (fun e => e.1 == path) then
    files.map (fun e => if e.1 == path then (path, content) else e)
  else files ++ [(path, content)]

/-- The failure exits of the ledger operations. Each constructor is one
panic site of the source: `configMissing` is `expect("Run init first.")`
(or `expect("No ratel.yaml found.")` in certify), `configCorrupt` the
`serde_yaml::from_str(...).unwrap()` panic, `fileMissing` the
`expect("File missing")` panic, and `integrityViolation` the
`panic!("ALERT: '{}' modified! Audit aborted.")` at main.rs:224. -/
inductive LedgerError
  | configMissing
  | configCorrupt
  | fileMissing (path : String)
  | integrityViolation (path : String)
deriving DecidableEq, Repr

/-! ## `check_integrity` (main.rs:218-227) -/

/-- The `for (path, original_hash) in config.expert_hashes` loop of
`check_integrity` (main.rs:221-226): read each tracked file, panic on a
missing file, panic on a digest mismatch. -/
def checkFiles (w : World) : List (String × String) → Except LedgerError Unit
  | [] => .ok ()
  | (path, original_hash) :: rest =>
    match readFile w path with
    | none => .error (.fileMissing path)
    | some current_content =>
      if calculate_hash current_content ≠ original_hash then
        .error (.integrityViolation path)
      else checkFiles w rest

/-- `check_integrity` (main.rs:218-227): load `ratel.yaml` (panic if
missing, panic if unparsable), then verify every tracked digest. -/
def check_integrity (w : World) : Except LedgerError Unit :=
  match w.ledger with
  | none => .error .configMissing
  | some .corrupt => .error .configCorrupt
  | some (.valid config) => checkFiles w config.expert_hashes

/-! ## `certify_modifications` (main.rs:229-242) -/

/-- The rebaselining loop of `certify_modifications` (main.rs:233-237):
for each tracked path whose file is readable, record its recomputed
digest; unreadable paths are skipped (dropped from the new map). -/
def newHashes (w : World) : List (String × String) → List (String × String)
  | [] => []
  | (path, _) :: rest =>
    match readFile w path with
    | some content => (path, calculate_hash content) :: newHashes w rest
    | none => newHashes w rest

/-- `certify_modifications` (main.rs:229-242): load the ledger (panic if
missing or unparsable), recompute the digests of the readable tracked
files, set `customized_at`, persist the updated ledger. -/
def certify_modifications (w : World) (now : Nat) : Except LedgerError World :=
  match w.ledger with
  | none => .error .configMissing
  | some .corrupt => .error .configCorrupt
  | some (.valid config) =>
    let config' := { config with
      expert_hashes := newHashes w config.expert_hashes,
      customized_at := some now }
    .ok { w with ledger := some (.valid config') }

/-! ## The `init` subcommand (main.rs:75-88, 95-105, 197-216) -/

/-- `generate_default_scenario` (main.rs:95-105), the raw string verbatim. -/
def generate_default_scenario : String :=
  "SCENARIO \"Access audit\"\nTARGET \"http://localhost:8080\"\nWITH_SCOPE KERNEL\n\nSTEP \"Secure transport verification\"\n    ATTACK secure_headers\n    CHECK header \"Strict-Transport-Security\" EXISTS\n    CHECK response.status BE 200"

/-- The `Init` arm of `main` (main.rs:75-88) with `setup_security_file`
and `save_ratel_config` inlined: probe for `package.json`, choose the
project type and scenario path, write the scenario file, persist a
fresh ledger tracking it. `version` stands for `env!("CARGO_PKG_VERSION")`,
injected at compile time from a manifest that is not part of src/. -/
def ratel_init (w : World) (version context : String) (now : Nat) : World :=
  let probe := (readFile w "package.json").isSome
  let p_type := if probe then "Node.js" else "Generic"
  let path := if probe then "tests/ratel/security.ratel" else "security.ratel"
  let content := generate_default_scenario
  let files' := writeFile w.files path content
  let config : RatelConfig := {
    version := version
    project_type := p_type
    context := context
    initialized_at := now
    customized_at := none
    expert_hashes := [(path, calculate_hash content)] }
  { ledger := some (.valid config), files := files' }

/-! ## The scenario parser

The pest grammar file `ratel.pest` referenced at main.rs:15 is not part
of src/ (only the derive that loads it is), so the parser is modelled
from the spec. -/

/-- Rust's `s.replace("\"", "")` (main.rs:140,141,145): remove every
double-quote character. -/
def stripQuotes (s : String) : String :=
  (s.data.filter (fun c => c != '"')).asString

/-- One parsed action of a step, as the pest pairs the orchestrator
loop matches at main.rs:150-177: an `ATTACK` pair whose inner text is
the attack identifier, or a `CHECK` pair whose text is the check
expression. -/
inductive Cmd
  | attack (value : String)
  | check (value : String)
deriving DecidableEq, Repr

/-- A parsed `STEP` block: the quoted title token (quote characters
still present, as in pest's `as_str()`), then its actions. -/
structure PStep where
  title : String
  cmds : List Cmd
deriving DecidableEq, Repr

/-- One pair of the parsed file, as iterated by the `for record in
file.into_inner()` loop (main.rs:138): the header declarations carry
their token text (quoted strings with quotes), `eoi` is the end-of-input
pair that falls into the loop's catch-all arm. -/
inductive Record
  | scenario (tok : String)
  | target (tok : String)
  | with_scope (tok : String)
  | step (s : PStep)
  | eoi
deriving DecidableEq, Repr

/-- Split a character list into lines at newline characters. -/
def splitLines : List Char → List (List Char)
  | [] => [[]]
  | c :: rest =>
    if c = '\n' then [] :: splitLines rest
    else
      match splitLines rest with
      | [] => [[c]]
      | l :: ls => (c :: l) :: ls

/-- Strip leading and trailing whitespace. -/
def trimChars (l : List Char) : List Char :=
  ((l.dropWhile Char.isWhitespace).reverse.dropWhile Char.isWhitespace).reverse

/-- Match a leading keyword followed by whitespace; return the trimmed
remainder of the line. -/
def dropKw : List Char → List Char → Option (List Char)
  | [], rest =>
    match rest with
    | [] => none
    | c :: cs => if c.isWhitespace then some (trimChars (c :: cs)) else none
  | _ :: _, [] => none
  | k :: ks, c :: cs => if c = k then dropKw ks cs else none

/-- A well-terminated quoted-string token: starts and ends with a
double quote. An unterminated quoted string fails this test. -/
def isQuotedTok (l : List Char) : Bool :=
  decide (2 ≤ l.length) && l.head? == some '"' && l.getLast? == some '"'

/-- An identifier token: nonempty, alphanumeric or underscore. -/
def isIdentTok (l : List Char) : Bool :=
  !l.isEmpty && l.all (fun c => c.isAlphanum || c == '_')

/-- Modelled from the spec: classify one line inside a `STEP` block per
the grammar rules `attack := "ATTACK" identifier` and
`check := "CHECK" free_text_until_end_of_statement` (spec §4.1). -/
def lineAction (line : List Char) : Option Cmd :=
  match dropKw "ATTACK".data line with
  | some t => if isIdentTok t then some (.attack t.asString) else none
  | none =>
    match dropKw "CHECK".data line with
    | some t => if t ≠ [] then some (.check t.asString) else none
    | none => none

/-- Take the longest run of action lines; return them with the rest. -/
def spanActions : List (List Char) → List Cmd × List (List Char)
  | [] => ([], [])
  | line :: rest =>
    match lineAction line with
    | some c =>
      let (cs, r) := spanActions rest
      (c :: cs, r)
    | none => ([], line :: rest)

/-- Modelled from the spec: parse the `step*` tail of a file per the
grammar rule `step := "STEP" quoted_string (attack | check)*`
(spec §4.1). Fuel-driven recursion; the initial fuel is the number of
remaining lines, which suffices since each `STEP` line is consumed. -/
def stepsGo : Nat → List (List Char) → Except String (List PStep)
  | _, [] => .ok []
  | 0, _ :: _ => .error "internal: line budget exhausted"
  | fuel + 1, line :: rest =>
    match dropKw "STEP".data line with
    | some t =>
      if isQuotedTok t then
        let (cs, r) := spanActions rest
        match stepsGo fuel r with
        | .ok steps => .ok ({ title := t.asString, cmds := cs } :: steps)
        | .error e => .error e
      else .error ("unterminated or malformed quoted string after STEP: " ++ t.asString)
    | none => .error ("expected STEP, ATTACK or CHECK, found: " ++ line.asString)

/-- Modelled from the spec: the scenario parser, standing for
`RatelParser::parse(Rule::file, content)` whose `ratel.pest` grammar is
missing from src/. It follows the spec grammar (§4.1):
`file := scenario target scope step*`, line-oriented, quoted strings
must be terminated, parsing is total and atomic. On success it yields
the pest-like record sequence the orchestrator loop iterates. -/
def parseRatel (content : String) : Except String (List Record) :=
  let lines := ((splitLines content.data).map trimChars).filter (fun l => !l.isEmpty)
  match lines with
  | l1 :: l2 :: l3 :: rest =>
    match dropKw "SCENARIO".data l1 with
    | none => .error "expected SCENARIO declaration"
    | some t1 =>
      if !isQuotedTok t1 then
        .error "unterminated or malformed quoted string after SCENARIO"
      else
        match dropKw "TARGET".data l2 with
        | none => .error "expected TARGET declaration"
        | some t2 =>
          if !isQuotedTok t2 then
            .error "unterminated or malformed quoted string after TARGET"
          else
            match dropKw "WITH_SCOPE".data l3 with
            | none => .error "expected WITH_SCOPE declaration"
            | some t3 =>
              if !isIdentTok t3 then .error "malformed scope identifier"
              else
                match stepsGo rest.length rest with
                | .error e => .error e
                | .ok steps =>
                  .ok ([.scenario t1.asString, .target t2.asString,
                        .with_scope t3.asString]
                       ++ steps.map Record.step ++ [.eoi])
  | _ => .error "expected SCENARIO, TARGET and WITH_SCOPE declarations"

/-! ## The audit orchestrator (`execute_full_audit`, main.rs:108-189) -/

/-- The result struct returned by the external `cdd_core` engine
(spec §6: `{success: bool, message: string}`). -/
structure CoreResult where
  success : Bool
  message : String
deriving DecidableEq, Repr

/-- The external Execution Engine (`cdd_core`), specified only at its
boundary: `execute_attack(kind, payload)` and `verify_condition(expr)`. -/
structure Engine where
  execute_attack : String → String → CoreResult
  verify_condition : String → CoreResult

/-- `ActionResult` (main.rs:29-36). -/
structure ActionResult where
  kind : String
  value : String
  target : Option String
  status : String
  message : String
deriving DecidableEq, Repr

/-- `StepResult` (main.rs:38-42). -/
structure StepResult where
  title : String
  results : List ActionResult
deriving DecidableEq, Repr

/-- `AuditReport` (main.rs:44-51); `executed_at` modelled as `Nat`. -/
structure AuditReport where
  name : String
  target : String
  scope : String
  steps : List StepResult
  executed_at : Nat
deriving DecidableEq, Repr

/-- The body of the `for cmd in inner` match (main.rs:150-178): one
engine call per action, its boolean verdict mapped to
`"SUCCESS"`/`"FAILED"`, its message carried through, `target` left
unset (`None`). -/
def mkActionResult (eng : Engine) : Cmd → ActionResult
  | .attack attack_val =>
    let core_res := eng.execute_attack "attack" attack_val
    { kind := "ATTACK"
      value := attack_val
      target := none
      status := if core_res.success then "SUCCESS" else "FAILED"
      message := core_res.message }
  | .check check_val =>
    let core_res := eng.verify_condition check_val
    { kind := "CHECK"
      value := check_val
      target := none
      status := if core_res.success then "SUCCESS" else "FAILED"
      message := core_res.message }

/-- The `for cmd in inner` loop (main.rs:148-180): push one
`ActionResult` per action onto the accumulator, counting engine calls. -/
def stepLoop (eng : Engine) : List Cmd → List ActionResult × Nat → List ActionResult × Nat
  | [], acc => acc
  | cmd :: rest, (action_results, calls) =>
    stepLoop eng rest (action_results ++ [mkActionResult eng cmd], calls + 1)

/-- The `for record in file.into_inner()` loop (main.rs:138-185):
header records set the report header fields (quotes stripped via Rust's
`replace("\"", "")`), each step record appends one `StepResult`, other
records fall through the catch-all arm. The engine-call count is
threaded alongside. -/
def auditLoop (eng : Engine) : List Record → AuditReport × Nat → AuditReport × Nat
  | [], acc => acc
  | record :: rest, (report, calls) =>
    match record with
    | .scenario tok => auditLoop eng rest ({ report with name := stripQuotes tok }, calls)
    | .target tok => auditLoop eng rest ({ report with target := stripQuotes tok }, calls)
    | .with_scope tok => auditLoop eng rest ({ report with scope := tok }, calls)
    | .step s =>
      let title := stripQuotes s.title
      let (action_results, n) := stepLoop eng s.cmds ([], 0)
      auditLoop eng rest
        ({ report with steps := report.steps ++ [{ title := title, results := action_results }] },
         calls + n)
    | .eoi => auditLoop eng rest (report, calls)

/-- The JSON object printed on a parse failure (main.rs:120-124). -/
structure ParseErrorOutput where
  status : String
  error_type : String
  message : String
deriving DecidableEq, Repr

/-- The observable outcome of one `run` invocation: abort in the
pre-flight integrity check (a panic inside `check_integrity`), panic
reading the scenario file (`expect("Unable to read .ratel file")`),
the parse-error object printed with `std::process::exit(1)`, or the
final audit report printed to stdout. -/
inductive RunOutcome
  | integrityAbort (e : LedgerError)
  | readPanic
  | parseFailure (out : ParseErrorOutput) (exitCode : Nat)
  | report (r : AuditReport)
deriving DecidableEq, Repr

/-- `execute_full_audit` (main.rs:108-189), paired with the number of
calls made to the external `cdd_core` engine during the invocation. -/
def execute_full_audit (eng : Engine) (w : World) (path : String) (now : Nat) :
    RunOutcome × Nat :=
  match check_integrity w with
  | .error e => (.integrityAbort e, 0)
  | .ok () =>
    match readFile w path with
    | none => (.readPanic, 0)
    | some content =>
      match parseRatel content with
      | .error e =>
        (.parseFailure
          { status := "error"
            error_type := "PARSING_ERROR"
            message := "Syntax error in .ratel file: " ++ e } 1, 0)
      | .ok records =>
        let pr := auditLoop eng records
          ({ name := "", target := "", scope := "", steps := [], executed_at := now }, 0)
        (.report pr.1, pr.2)

/-! ## The AST view (spec §3), for the parsing claims -/

/-- An action of the spec's AST (§3): `Attack{name}` or `Check{expression}`. -/
inductive Action
  | attack (name : String)
  | check (expr : String)
deriving DecidableEq, Repr

/-- A step of the spec's AST (§3). -/
structure ASTStep where
  title : String
  actions : List Action
deriving DecidableEq, Repr

/-- The spec's AST (§3): one scenario name, target, scope, and the steps. -/
structure AST where
  name : String
  target : String
  scope : String
  steps : List ASTStep
deriving DecidableEq, Repr

/-- The AST assembled from a parsed record sequence, extracting the
header fields and step structure exactly the way the orchestrator loop
does (main.rs:140-145: quotes stripped via `replace("\"", "")`), minus
the engine calls. -/
def astOfRecords (records : List Record) : AST :=
  records.foldl
    (fun ast record =>
      match record with
      | .scenario tok => { ast with name := stripQuotes tok }
      | .target tok => { ast with target := stripQuotes tok }
      | .with_scope tok => { ast with scope := tok }
      | .step s =>
        { ast with
          steps := ast.steps ++
            [{ title := stripQuotes s.title
               actions := s.cmds.map (fun c =>
                 match c with
                 | .attack v => Action.attack v
                 | .check v => Action.check v) }] }
      | .eoi => ast)
    { name := "", target := "", scope := "", steps := [] }

/-- Parsing straight to the AST view. -/
def parseAST (content : String) : Except String AST :=
  (parseRatel content).map astOfRecords

/-- The step payload of a record, if it is one. -/
def recordStep : Record → Option PStep
  | .step s => some s
  | _ => none

/-- All `ActionResult`s of the report a run outcome emits (none when the
run aborted before orchestration). -/
def resultsOf : RunOutcome → List ActionResult
  | .report r => (r.steps.map (fun sr => sr.results)).flatten
  | _ => []

/-! ## Helper lemmas -/

theorem stepLoop_eq (eng : Engine) (cmds : List Cmd) (acc : List ActionResult) (n : Nat) :
    stepLoop eng cmds (acc, n) = (acc ++ cmds.map (mkActionResult eng), n + cmds.length) := by
  induction cmds generalizing acc n with
  | nil => simp [stepLoop]
  | cons c rest ih =>
    rw [stepLoop, ih]
    simp [List.append_assoc]
    omega

theorem auditLoop_steps (eng : Engine) (records : List Record) (rep : AuditReport) (n : Nat) :
    ((auditLoop eng records (rep, n)).1).steps
      = rep.steps ++ (records.filterMap recordStep).map
          (fun s => { title := stripQuotes s.title
                      results := s.cmds.map (mkActionResult eng) }) := by
  induction records generalizing rep n with
  | nil => simp [auditLoop]
  | cons r rest ih =>
    cases r with
    | scenario tok => simpa [auditLoop, recordStep] using ih _ _
    | target tok => simpa [auditLoop, recordStep] using ih _ _
    | with_scope tok => simpa [auditLoop, recordStep] using ih _ _
    | eoi => simpa [auditLoop, recordStep] using ih _ _
    | step s =>
      rw [auditLoop]
      simp only [stepLoop_eq, List.nil_append, Nat.zero_add]
      rw [ih]
      simp [recordStep, List.append_assoc]

theorem mkActionResult_target_none (eng : Engine) (c : Cmd) :
    (mkActionResult eng c).target = none := by
  cases c <;> rfl

theorem mkActionResult_status_cases (eng : Engine) (c : Cmd) :
    (mkActionResult eng c).status = "SUCCESS" ∨ (mkActionResult eng c).status = "FAILED" := by
  cases c with
  | attack v =>
    cases hb : (eng.execute_attack "attack" v).success <;> simp [mkActionResult, hb]
  | check v =>
    cases hb : (eng.verify_condition v).success <;> simp [mkActionResult, hb]

theorem resultsOf_run (eng : Engine) (w : World) (path : String) (now : Nat) :
    ∀ ar ∈ resultsOf (execute_full_audit eng w path now).1, ∃ c, ar = mkActionResult eng c := by
  intro ar har
  unfold execute_full_audit at har
  rcases hchk : check_integrity w with e | u
  · rw [hchk] at har; simp [resultsOf] at har
  · cases u
    rw [hchk] at har
    dsimp only at har
    rcases hrd : readFile w path with _ | content
    · rw [hrd] at har; simp [resultsOf] at har
    · rw [hrd] at har
      dsimp only at har
      rcases hpr : parseRatel content with e | records
      · rw [hpr] at har; simp [resultsOf] at har
      · rw [hpr] at har
        dsimp only at har
        simp only [resultsOf, List.mem_flatten, List.mem_map] at har
        obtain ⟨l, ⟨sr, hsr, hl⟩, hmem⟩ := har
        rw [auditLoop_steps] at hsr
        simp only [List.nil_append, List.mem_map] at hsr
        obtain ⟨s, _, hs⟩ := hsr
        subst hl
        rw [← hs] at hmem
        simp only [List.mem_map] at hmem
        obtain ⟨c, _, hc⟩ := hmem
        exact ⟨c, hc.symm⟩

theorem checkFiles_err_of_mismatch (w : World) (l : List (String × String))
    (p h c : String) (hmem : (p, h) ∈ l) (hread : readFile w p = some c)
    (hdiff : calculate_hash c ≠ h) :
    ∃ e, checkFiles w l = .error e := by
  induction l with
  | nil => cases hmem
  | cons hd rest ih =>
    obtain ⟨q, g⟩ := hd
    rcases hre : readFile w q with _ | cc
    · exact ⟨.fileMissing q, by simp [checkFiles, hre]⟩
    · by_cases hdq : calculate_hash cc ≠ g
      · exact ⟨.integrityViolation q, by simp [checkFiles, hre, hdq]⟩
      · rcases List.mem_cons.mp hmem with heq | hmem'
        · obtain ⟨hq, hg⟩ := Prod.ext_iff.mp heq
          subst hq hg
          rw [hread] at hre
          cases hre
          exact absurd hdiff (by simpa using hdq)
        · obtain ⟨e, he⟩ := ih hmem'
          exact ⟨e, by simp [checkFiles, hre, hdq, he]⟩

theorem checkFiles_err_sound (w : World) (l : List (String × String)) (e : LedgerError)
    (h : checkFiles w l = .error e) :
    (∃ p hh, e = .fileMissing p ∧ (p, hh) ∈ l ∧ readFile w p = none) ∨
    (∃ p hh c, e = .integrityViolation p ∧ (p, hh) ∈ l ∧ readFile w p = some c ∧
      calculate_hash c ≠ hh) := by
  induction l with
  | nil => simp [checkFiles] at h
  | cons hd rest ih =>
    obtain ⟨q, g⟩ := hd
    rcases hre : readFile w q with _ | cc
    · rw [checkFiles, hre] at h
      dsimp only at h
      cases h
      exact Or.inl ⟨q, g, rfl, List.mem_cons_self .., hre⟩
    · rw [checkFiles, hre] at h
      dsimp only at h
      by_cases hdq : calculate_hash cc ≠ g
      · rw [if_pos hdq] at h
        cases h
        exact Or.inr ⟨q, g, cc, rfl, List.mem_cons_self .., hre, hdq⟩
      · rw [if_neg hdq] at h
        rcases ih h with ⟨p, hh, h1, h2, h3⟩ | ⟨p, hh, c, h1, h2, h3, h4⟩
        · exact Or.inl ⟨p, hh, h1, List.mem_cons_of_mem _ h2, h3⟩
        · exact Or.inr ⟨p, hh, c, h1, List.mem_cons_of_mem _ h2, h3, h4⟩

theorem checkFiles_ok_of_all (w : World) (l : List (String × String))
    (h : ∀ p hh, (p, hh) ∈ l → ∃ c, readFile w p = some c ∧ calculate_hash c = hh) :
    checkFiles w l = .ok () := by
  induction l with
  | nil => rfl
  | cons hd rest ih =>
    obtain ⟨q, g⟩ := hd
    obtain ⟨c, hread, hhash⟩ := h q g (List.mem_cons_self ..)
    rw [checkFiles, hread]
    dsimp only
    rw [if_neg (by simp [hhash])]
    exact ih (fun p hh hmem => h p hh (List.mem_cons_of_mem _ hmem))

theorem checkFiles_err_of_missing (w : World) (l : List (String × String))
    (p h : String) (hmem : (p, h) ∈ l) (hread : readFile w p = none) :
    ∃ e, checkFiles w l = .error e := by
  induction l with
  | nil => cases hmem
  | cons hd rest ih =>
    obtain ⟨q, g⟩ := hd
    rcases hre : readFile w q with _ | cc
    · exact ⟨.fileMissing q, by simp [checkFiles, hre]⟩
    · by_cases hdq : calculate_hash cc ≠ g
      · exact ⟨.integrityViolation q, by simp [checkFiles, hre, hdq]⟩
      · rcases List.mem_cons.mp hmem with heq | hmem'
        · obtain ⟨hq, hg⟩ := Prod.ext_iff.mp heq
          subst hq
          rw [hread] at hre
          cases hre
        · obtain ⟨e, he⟩ := ih hmem'
          exact ⟨e, by simp [checkFiles, hre, hdq, he]⟩

theorem checkFiles_violation_of_mismatch (w : World) (l : List (String × String))
    (hall : ∀ p h, (p, h) ∈ l → ∃ c, readFile w p = some c)
    (p h c : String) (hmem : (p, h) ∈ l) (hread : readFile w p = some c)
    (hdiff : calculate_hash c ≠ h) :
    ∃ q, checkFiles w l = .error (.integrityViolation q) := by
  induction l with
  | nil => cases hmem
  | cons hd rest ih =>
    obtain ⟨q, g⟩ := hd
    obtain ⟨cq, hre⟩ := hall q g (List.mem_cons_self ..)
    by_cases hdq : calculate_hash cq ≠ g
    · exact ⟨q, by simp [checkFiles, hre, hdq]⟩
    · rcases List.mem_cons.mp hmem with heq | hmem'
      · obtain ⟨hq, hg⟩ := Prod.ext_iff.mp heq
        subst hq hg
        rw [hread] at hre
        cases hre
        exact absurd hdiff (by simpa using hdq)
      · obtain ⟨q', he⟩ := ih (fun a b hm => hall a b (List.mem_cons_of_mem _ hm)) hmem'
        exact ⟨q', by simp [checkFiles, hre, hdq, he]⟩

theorem checkFiles_missing_of_match (w : World) (l : List (String × String))
    (hmatch : ∀ p h c, (p, h) ∈ l → readFile w p = some c → calculate_hash c = h)
    (p h : String) (hmem : (p, h) ∈ l) (hread : readFile w p = none) :
    ∃ q, checkFiles w l = .error (.fileMissing q) := by
  induction l with
  | nil => cases hmem
  | cons hd rest ih =>
    obtain ⟨q, g⟩ := hd
    rcases hre : readFile w q with _ | cq
    · exact ⟨q, by simp [checkFiles, hre]⟩
    · have heq : calculate_hash cq = g := hmatch q g cq (List.mem_cons_self ..) hre
      rcases List.mem_cons.mp hmem with heq' | hmem'
      · obtain ⟨hq, hg⟩ := Prod.ext_iff.mp heq'
        subst hq
        rw [hread] at hre
        cases hre
      · obtain ⟨q', he⟩ :=
          ih (fun a b cc hm hr => hmatch a b cc (List.mem_cons_of_mem _ hm) hr) hmem'
        exact ⟨q', by simp [checkFiles, hre, heq, he]⟩

theorem checkFiles_ok_sound (w : World) (l : List (String × String))
    (hok : checkFiles w l = .ok ()) :
    ∀ p h, (p, h) ∈ l → ∃ c, readFile w p = some c ∧ calculate_hash c = h := by
  induction l with
  | nil => intro p h hmem; cases hmem
  | cons hd rest ih =>
    obtain ⟨q, g⟩ := hd
    rcases hre : readFile w q with _ | cq
    · rw [checkFiles, hre] at hok
      dsimp only at hok
      cases hok
    · rw [checkFiles, hre] at hok
      dsimp only at hok
      by_cases hdq : calculate_hash cq ≠ g
      · rw [if_pos hdq] at hok
        cases hok
      · rw [if_neg hdq] at hok
        intro p h hmem
        rcases List.mem_cons.mp hmem with heq | hmem'
        · obtain ⟨hq, hg⟩ := Prod.ext_iff.mp heq
          subst hq hg
          exact ⟨cq, hre, by simpa using hdq⟩
        · exact ih hok p h hmem'

theorem newHashes_eq (w : World) (l : List (String × String)) :
    newHashes w l = l.filterMap
      (fun e => (readFile w e.1).map (fun c => (e.1, calculate_hash c))) := by
  induction l with
  | nil => rfl
  | cons hd rest ih =>
    obtain ⟨q, g⟩ := hd
    rcases hre : readFile w q with _ | cc <;>
      simp [newHashes, hre, ih, List.filterMap_cons]

theorem checkFiles_newHashes (wA wB : World) (hf : wA.files = wB.files)
    (l : List (String × String)) :
    checkFiles wA (newHashes wB l) = .ok () := by
  have hr : ∀ p, readFile wA p = readFile wB p := fun p => by
    rw [readFile, readFile, hf]
  apply checkFiles_ok_of_all
  intro p hh hmem
  rw [newHashes_eq] at hmem
  simp only [List.mem_filterMap] at hmem
  obtain ⟨e, _, he⟩ := hmem
  rcases hre : readFile wB e.1 with _ | cc
  · rw [hre] at he; cases he
  · rw [hre] at he
    cases he
    exact ⟨cc, by rw [hr]; exact hre, rfl⟩

theorem find_map_write_of_any (fs : List (String × String)) (p c : String)
    (ha : fs.any (fun e => e.1 == p) = true) :
    (fs.map (fun e => if e.1 == p then (p, c) else e)).find? (fun e => e.1 == p)
      = some (p, c) := by
  induction fs with
  | nil => simp at ha
  | cons e rest ih =>
    cases he : (e.1 == p) with
    | true =>
      simp only [List.map_cons, he, if_true]
      rw [List.find?_cons_of_pos _ (by simp)]
    | false =>
      simp only [List.map_cons, he, if_false]
      rw [List.find?_cons_of_neg _ (by simp [he])]
      apply ih
      simpa [he] using ha

theorem find_append_of_not_any (fs : List (String × String)) (p c : String)
    (ha : fs.any (fun e => e.1 == p) = false) :
    (fs ++ [(p, c)]).find? (fun e => e.1 == p) = some (p, c) := by
  induction fs with
  | nil => simp [List.find?]
  | cons e rest ih =>
    simp only [List.any_cons, Bool.or_eq_false_iff] at ha
    obtain ⟨he, ha'⟩ := ha
    rw [List.cons_append, List.find?_cons_of_neg _ (by simp [he])]
    exact ih ha'

theorem readFile_writeFile (L : Option LedgerFile) (fs : List (String × String))
    (p c : String) :
    readFile ⟨L, writeFile fs p c⟩ p = some c := by
  rw [readFile, writeFile]
  dsimp only
  cases ha : fs.any (fun e => e.1 == p) with
  | true =>
    rw [if_pos rfl, find_map_write_of_any fs p c ha]
    rfl
  | false =>
    rw [if_neg (by simp), find_append_of_not_any fs p c ha]
    rfl

/-! ## The claims -/

/-- C1: whenever some tracked file's recomputed digest differs from the
digest recorded in the ledger, `run`'s pre-flight integrity check aborts
the whole operation (outcome `integrityAbort`, so the scenario file is
never parsed or orchestrated) and zero calls are made to the external
`cdd_core` engine. -/
theorem C1_integrity_violation_aborts_run (eng : Engine) (w : World)
    (path : String) (now : Nat) (cfg : RatelConfig) (p h c : String)
    (hcfg : w.ledger = some (.valid cfg))
    (hmem : (p, h) ∈ cfg.expert_hashes)
    (hread : readFile w p = some c)
    (hdiff : calculate_hash c ≠ h) :
    ∃ e, execute_full_audit eng w path now = (.integrityAbort e, 0) := by
  obtain ⟨e, he⟩ := checkFiles_err_of_mismatch w cfg.expert_hashes p h c hmem hread hdiff
  have hchk : check_integrity w = .error e := by
    rw [check_integrity, hcfg]
    exact he
  refine ⟨e, ?_⟩
  unfold execute_full_audit
  rw [hchk]

/-- Witness for C1: a ledger recording digest `""` for `security.ratel`
while the file's content is `"x"` (whose SHA-256 differs) makes `run`
abort with zero engine calls. -/
theorem C1_witness :
    ∃ e, execute_full_audit ⟨fun _ _ => ⟨true, ""⟩, fun _ => ⟨true, ""⟩⟩
      ⟨some (.valid ⟨"0.1.0", "Generic", "generic", 0, none, [("security.ratel", "")]⟩),
       [("security.ratel", "x")]⟩
      "security.ratel" 0 = (.integrityAbort e, 0) :=
  C1_integrity_violation_aborts_run _ _ "security.ratel" 0 _ "security.ratel" "" "x"
    rfl (by decide) (by decide) (by decide)

/-- C2: when the scenario file's text fails to parse, `run` emits the
structured object `{status := "error", error_type := "PARSING_ERROR",
message}` in place of a report, exits with the nonzero code 1, and
makes zero calls to the external engine. -/
theorem C2_parse_error_is_structured_and_engine_free (eng : Engine) (w : World)
    (path : String) (now : Nat) (content e : String)
    (hok : check_integrity w = .ok ())
    (hread : readFile w path = some content)
    (hparse : parseRatel content = .error e) :
    execute_full_audit eng w path now =
      (.parseFailure
        { status := "error"
          error_type := "PARSING_ERROR"
          message := "Syntax error in .ratel file: " ++ e } 1, 0) := by
  unfold execute_full_audit
  rw [hok]
  dsimp only
  rw [hread]
  dsimp only
  rw [hparse]

/-- Witness for C2: a scenario file with an unterminated quoted string
produces exactly the parse-error object, exit code 1, zero engine calls. -/
theorem C2_witness :
    execute_full_audit ⟨fun _ _ => ⟨true, ""⟩, fun _ => ⟨true, ""⟩⟩
      ⟨some (.valid ⟨"0.1.0", "Generic", "generic", 0, none, []⟩),
       [("bad.ratel", "SCENARIO \"Oops\nTARGET \"t\"\nWITH_SCOPE K")]⟩
      "bad.ratel" 0 =
    (.parseFailure
      { status := "error"
        error_type := "PARSING_ERROR"
        message := "Syntax error in .ratel file: " ++
          "unterminated or malformed quoted string after SCENARIO" } 1, 0) :=
  C2_parse_error_is_structured_and_engine_free _ _ "bad.ratel" 0 _ _ rfl rfl rfl

/-- C3: the orchestrator produces exactly one `ActionResult` per action,
in source order, appended to the enclosing `StepResult`, with the
`StepResult`s in source step order; the engine's boolean success flag
maps `true` to `"SUCCESS"` and `false` to `"FAILED"`, and the engine's
message is carried into the `ActionResult` unchanged. -/
theorem C3_one_result_per_action_in_source_order (eng : Engine)
    (records : List Record) (now : Nat) :
    ((auditLoop eng records
        ({ name := "", target := "", scope := "", steps := [], executed_at := now },
         0)).1).steps
      = (records.filterMap recordStep).map
          (fun s => { title := stripQuotes s.title
                      results := s.cmds.map (mkActionResult eng) })
  ∧ (∀ v, ((eng.execute_attack "attack" v).success = true →
        (mkActionResult eng (.attack v)).status = "SUCCESS")
      ∧ ((eng.execute_attack "attack" v).success = false →
        (mkActionResult eng (.attack v)).status = "FAILED")
      ∧ (mkActionResult eng (.attack v)).message = (eng.execute_attack "attack" v).message)
  ∧ (∀ v, ((eng.verify_condition v).success = true →
        (mkActionResult eng (.check v)).status = "SUCCESS")
      ∧ ((eng.verify_condition v).success = false →
        (mkActionResult eng (.check v)).status = "FAILED")
      ∧ (mkActionResult eng (.check v)).message = (eng.verify_condition v).message) := by
  refine ⟨?_, ?_, ?_⟩
  · rw [auditLoop_steps]
    simp
  · intro v
    refine ⟨fun hb => ?_, fun hb => ?_, rfl⟩ <;> simp [mkActionResult, hb]
  · intro v
    refine ⟨fun hb => ?_, fun hb => ?_, rfl⟩ <;> simp [mkActionResult, hb]

/-- C4: no code path ever assigns status `"ERROR"`: every `ActionResult`
the orchestrator emits has status `"SUCCESS"` or `"FAILED"`, for every
engine and every input. The `"ERROR"` status documented in the source's
own comment (main.rs:34) is unreachable, and an engine call that fails
unexpectedly has no representation at all in `execute_full_audit`. -/
theorem C4_error_status_unreachable (eng : Engine) (w : World)
    (path : String) (now : Nat) :
    ((resultsOf (execute_full_audit eng w path now).1).all
      (fun ar => ar.status == "SUCCESS" || ar.status == "FAILED")) = true := by
  rw [List.all_eq_true]
  intro ar har
  obtain ⟨c, hc⟩ := resultsOf_run eng w path now ar har
  subst hc
  rcases mkActionResult_status_cases eng c with h | h <;> simp [h]

/-- C5: `check_integrity` distinguishes the four failure circumstances,
in both directions. It reports `configMissing` exactly when the ledger
file is absent and `configCorrupt` exactly when the ledger exists but
is unparsable; `fileMissing p` only when `p` is tracked and unreadable
and `integrityViolation p` only when `p` is tracked with a mismatched
digest; it succeeds exactly when the ledger is loadable and every
tracked file is readable with a matching digest, so an unreadable or
tampered tracked file always makes it fail; and the kind reported is
`integrityViolation` whenever every tracked file is readable, and
`fileMissing` whenever every readable tracked digest matches (in mixed
worlds the loop reports the kind of the first failing entry, so only
the disjunction holds). -/
theorem C5_check_reports_the_documented_error_kinds (w : World) :
    (check_integrity w = .error .configMissing ↔ w.ledger = none)
  ∧ (check_integrity w = .error .configCorrupt ↔ w.ledger = some .corrupt)
  ∧ (∀ p, check_integrity w = .error (.fileMissing p) →
      ∃ cfg h, w.ledger = some (.valid cfg) ∧ (p, h) ∈ cfg.expert_hashes ∧
        readFile w p = none)
  ∧ (∀ p, check_integrity w = .error (.integrityViolation p) →
      ∃ cfg h c, w.ledger = some (.valid cfg) ∧ (p, h) ∈ cfg.expert_hashes ∧
        readFile w p = some c ∧ calculate_hash c ≠ h)
  ∧ (check_integrity w = .ok () ↔
      ∃ cfg, w.ledger = some (.valid cfg) ∧
        ∀ p h, (p, h) ∈ cfg.expert_hashes →
          ∃ c, readFile w p = some c ∧ calculate_hash c = h)
  ∧ (∀ cfg p h, w.ledger = some (.valid cfg) → (p, h) ∈ cfg.expert_hashes →
      readFile w p = none →
      ∃ q, check_integrity w = .error (.fileMissing q) ∨
        check_integrity w = .error (.integrityViolation q))
  ∧ (∀ cfg p h c, w.ledger = some (.valid cfg) → (p, h) ∈ cfg.expert_hashes →
      readFile w p = some c → calculate_hash c ≠ h →
      ∃ q, check_integrity w = .error (.fileMissing q) ∨
        check_integrity w = .error (.integrityViolation q))
  ∧ (∀ cfg, w.ledger = some (.valid cfg) →
      (∀ p h, (p, h) ∈ cfg.expert_hashes → ∃ c, readFile w p = some c) →
      ∀ p h c, (p, h) ∈ cfg.expert_hashes → readFile w p = some c →
        calculate_hash c ≠ h →
        ∃ q, check_integrity w = .error (.integrityViolation q))
  ∧ (∀ cfg, w.ledger = some (.valid cfg) →
      (∀ p h c, (p, h) ∈ cfg.expert_hashes → readFile w p = some c →
        calculate_hash c = h) →
      ∀ p h, (p, h) ∈ cfg.expert_hashes → readFile w p = none →
        ∃ q, check_integrity w = .error (.fileMissing q)) := by
  rcases hld : w.ledger with _ | lf
  · simp [check_integrity, hld]
  · rcases lf with _ | cfg
    · simp [check_integrity, hld]
    · have hchk : check_integrity w = checkFiles w cfg.expert_hashes := by
        rw [check_integrity, hld]
      refine ⟨⟨fun h => ?_, fun h => ?_⟩, ⟨fun h => ?_, fun h => ?_⟩,
        fun p h => ?_, fun p h => ?_, ⟨fun hok => ?_, fun hex => ?_⟩,
        fun cfg' p h hcfg' hmem hread => ?_,
        fun cfg' p h c hcfg' hmem hread hdiff => ?_,
        fun cfg' hcfg' hall p h c hmem hread hdiff => ?_,
        fun cfg' hcfg' hmatch p h hmem hread => ?_⟩
      · rw [hchk] at h
        rcases checkFiles_err_sound w _ _ h with ⟨p, hh, he, _, _⟩ | ⟨p, hh, c, he, _, _, _⟩ <;>
          simp at he
      · simp at h
      · rw [hchk] at h
        rcases checkFiles_err_sound w _ _ h with ⟨p, hh, he, _, _⟩ | ⟨p, hh, c, he, _, _, _⟩ <;>
          simp at he
      · simp at h
      · rw [hchk] at h
        rcases checkFiles_err_sound w _ _ h with ⟨q, hh, he, hmem, hrd⟩ | ⟨q, hh, c, he, _, _, _⟩
        · injection he with hq
          subst hq
          exact ⟨cfg, hh, rfl, hmem, hrd⟩
        · simp at he
      · rw [hchk] at h
        rcases checkFiles_err_sound w _ _ h with ⟨q, hh, he, _, _⟩ | ⟨q, hh, c, he, hmem, hrd, hdf⟩
        · simp at he
        · injection he with hq
          subst hq
          exact ⟨cfg, hh, c, rfl, hmem, hrd, hdf⟩
      · rw [hchk] at hok
        exact ⟨cfg, rfl, checkFiles_ok_sound w _ hok⟩
      · obtain ⟨cfg', hcc, hall⟩ := hex
        injection hcc with h1
        injection h1 with h2
        subst h2
        rw [hchk]
        exact checkFiles_ok_of_all w _ hall
      · injection hcfg' with h1
        injection h1 with h2
        subst h2
        obtain ⟨e, he⟩ := checkFiles_err_of_missing w cfg.expert_hashes p h hmem hread
        rcases checkFiles_err_sound w _ _ he with ⟨q, hh, hef, _, _⟩ | ⟨q, hh, cc, hev, _, _, _⟩
        · subst hef
          exact ⟨q, Or.inl (hchk.trans he)⟩
        · subst hev
          exact ⟨q, Or.inr (hchk.trans he)⟩
      · injection hcfg' with h1
        injection h1 with h2
        subst h2
        obtain ⟨e, he⟩ := checkFiles_err_of_mismatch w cfg.expert_hashes p h c hmem hread hdiff
        rcases checkFiles_err_sound w _ _ he with ⟨q, hh, hef, _, _⟩ | ⟨q, hh, cc, hev, _, _, _⟩
        · subst hef
          exact ⟨q, Or.inl (hchk.trans he)⟩
        · subst hev
          exact ⟨q, Or.inr (hchk.trans he)⟩
      · injection hcfg' with h1
        injection h1 with h2
        subst h2
        obtain ⟨q, he⟩ := checkFiles_violation_of_mismatch w cfg.expert_hashes hall
          p h c hmem hread hdiff
        exact ⟨q, hchk.trans he⟩
      · injection hcfg' with h1
        injection h1 with h2
        subst h2
        obtain ⟨q, he⟩ := checkFiles_missing_of_match w cfg.expert_hashes hmatch
          p h hmem hread
        exact ⟨q, hchk.trans he⟩

/-- C6: parsing the literal default scenario yields the AST with name
"Access audit", target "http://localhost:8080", scope KERNEL, and one
step "Secure transport verification" whose actions are, in order,
Attack(secure_headers), Check(header "Strict-Transport-Security"
EXISTS), Check(response.status BE 200). -/
theorem C6_default_scenario_parses_to_expected_ast :
    parseAST generate_default_scenario = .ok
      { name := "Access audit"
        target := "http://localhost:8080"
        scope := "KERNEL"
        steps := [{ title := "Secure transport verification"
                    actions := [.attack "secure_headers",
                                .check "header \"Strict-Transport-Security\" EXISTS",
                                .check "response.status BE 200"] }] } := by
  rfl

/-- C7: given a loadable ledger, `certify_modifications` recomputes and
overwrites the digest of every tracked path whose file exists, drops
the tracked paths whose files are unreadable, sets `customized_at` to
the current time, persists the result, and carries `version`,
`project_type`, `context` and `initialized_at` through unchanged. -/
theorem C7_certify_rebaselines (w : World) (now : Nat) (cfg : RatelConfig)
    (hcfg : w.ledger = some (.valid cfg)) :
    ∃ cfg', certify_modifications w now = .ok { w with ledger := some (.valid cfg') }
      ∧ cfg'.version = cfg.version
      ∧ cfg'.project_type = cfg.project_type
      ∧ cfg'.context = cfg.context
      ∧ cfg'.initialized_at = cfg.initialized_at
      ∧ cfg'.customized_at = some now
      ∧ cfg'.expert_hashes = cfg.expert_hashes.filterMap
          (fun e => (readFile w e.1).map (fun c => (e.1, calculate_hash c))) := by
  refine ⟨{ cfg with expert_hashes := newHashes w cfg.expert_hashes, customized_at := some now }, ?_, rfl, rfl, rfl, rfl, rfl, newHashes_eq w _⟩
  rw [certify_modifications, hcfg]

/-- Witness for C7: certifying a ledger that tracks a readable `a.txt`
and a vanished `gone.txt` refreshes the digest of `a.txt`, drops
`gone.txt`, stamps `customized_at`, and keeps the metadata fields. -/
theorem C7_witness :
    ∃ cfg', certify_modifications
        ⟨some (.valid ⟨"0.1.0", "Generic", "generic", 3, none,
          [("a.txt", "old"), ("gone.txt", "z")]⟩), [("a.txt", "hello")]⟩ 7
      = .ok { ledger := some (.valid cfg'), files := [("a.txt", "hello")] }
      ∧ cfg'.version = "0.1.0"
      ∧ cfg'.project_type = "Generic"
      ∧ cfg'.context = "generic"
      ∧ cfg'.initialized_at = 3
      ∧ cfg'.customized_at = some 7
      ∧ cfg'.expert_hashes = [("a.txt", "old"), ("gone.txt", "z")].filterMap
          (fun e => (readFile ⟨some (.valid ⟨"0.1.0", "Generic", "generic", 3, none,
            [("a.txt", "old"), ("gone.txt", "z")]⟩), [("a.txt", "hello")]⟩ e.1).map
            (fun c => (e.1, calculate_hash c))) :=
  C7_certify_rebaselines
    ⟨some (.valid ⟨"0.1.0", "Generic", "generic", 3, none,
      [("a.txt", "old"), ("gone.txt", "z")]⟩), [("a.txt", "hello")]⟩ 7
    ⟨"0.1.0", "Generic", "generic", 3, none, [("a.txt", "old"), ("gone.txt", "z")]⟩ rfl

/-- C8: a `certify_modifications` that succeeds, followed by
`check_integrity` with no file modification in between, never reports
an `integrityViolation`: the fresh baseline fully verifies. -/
theorem C8_certify_then_check_verifies (w : World) (now : Nat) (w' : World)
    (hc : certify_modifications w now = .ok w') :
    check_integrity w' = .ok ()
  ∧ ∀ p, check_integrity w' ≠ .error (.integrityViolation p) := by
  rcases hld : w.ledger with _ | lf
  · rw [certify_modifications, hld] at hc; cases hc
  · rcases lf with _ | cfg
    · rw [certify_modifications, hld] at hc
      cases hc
    · rw [certify_modifications, hld] at hc
      dsimp only at hc
      cases hc
      have hok : check_integrity
          { w with ledger := some (.valid { cfg with
              expert_hashes := newHashes w cfg.expert_hashes,
              customized_at := some now }) } = .ok () := by
        rw [check_integrity]
        dsimp only
        apply checkFiles_newHashes
        rfl
      exact ⟨hok, fun p hcon => by rw [hok] at hcon; cases hcon⟩

/-- Witness for C8: the world obtained by certifying a ledger over the
file `a.txt` with content `"hello"` passes `check_integrity` and in
particular reports no violation for `a.txt`. -/
theorem C8_witness :
    check_integrity
      ⟨some (.valid ⟨"0.1.0", "Generic", "generic", 3, some 7,
        [("a.txt", calculate_hash "hello")]⟩), [("a.txt", "hello")]⟩ = .ok ()
  ∧ check_integrity
      ⟨some (.valid ⟨"0.1.0", "Generic", "generic", 3, some 7,
        [("a.txt", calculate_hash "hello")]⟩), [("a.txt", "hello")]⟩
      ≠ .error (.integrityViolation "a.txt") :=
  ⟨(C8_certify_then_check_verifies
      ⟨some (.valid ⟨"0.1.0", "Generic", "generic", 3, none,
        [("a.txt", "old"), ("gone.txt", "z")]⟩), [("a.txt", "hello")]⟩ 7 _ rfl).1,
   (C8_certify_then_check_verifies
      ⟨some (.valid ⟨"0.1.0", "Generic", "generic", 3, none,
        [("a.txt", "old"), ("gone.txt", "z")]⟩), [("a.txt", "hello")]⟩ 7 _ rfl).2 "a.txt"⟩

/-- C9 counterexample: the claim says `init` selects different default
scenario content depending on the ecosystem marker, but the source
passes `generate_default_scenario()` in both branches of main.rs:79-83:
with `package.json` present and absent the chosen tracked paths differ,
yet the written scenario content is identical. -/
theorem C9_counterexample_same_content_both_branches :
    (ratel_init ⟨none, [("package.json", "{}")]⟩ "0.1.0" "generic" 0).ledger
      = some (.valid { version := "0.1.0"
                       project_type := "Node.js"
                       context := "generic"
                       initialized_at := 0
                       customized_at := none
                       expert_hashes := [("tests/ratel/security.ratel",
                         calculate_hash generate_default_scenario)] })
  ∧ (ratel_init ⟨none, []⟩ "0.1.0" "generic" 0).ledger
      = some (.valid { version := "0.1.0"
                       project_type := "Generic"
                       context := "generic"
                       initialized_at := 0
                       customized_at := none
                       expert_hashes := [("security.ratel",
                         calculate_hash generate_default_scenario)] })
  ∧ readFile (ratel_init ⟨none, [("package.json", "{}")]⟩ "0.1.0" "generic" 0)
      "tests/ratel/security.ratel"
    = readFile (ratel_init ⟨none, []⟩ "0.1.0" "generic" 0) "security.ratel" :=
  ⟨rfl, rfl, rfl⟩

/-- C9 (amended): `init` selects a different default tracked scenario
path depending on whether `package.json` is present
(`tests/ratel/security.ratel` versus `security.ratel`) but the same
default scenario content in both cases; the resulting ledger's tracked
mapping records the selected path with the digest of the written
content, and the selected path holds that content. -/
theorem C9_init_path_selection (w : World) (version context : String) (now : Nat) :
    (ratel_init w version context now).ledger = some (.valid
      { version := version
        project_type := if (readFile w "package.json").isSome then "Node.js" else "Generic"
        context := context
        initialized_at := now
        customized_at := none
        expert_hashes :=
          [(if (readFile w "package.json").isSome then "tests/ratel/security.ratel"
            else "security.ratel",
            calculate_hash generate_default_scenario)] })
  ∧ readFile (ratel_init w version context now)
      (if (readFile w "package.json").isSome then "tests/ratel/security.ratel"
       else "security.ratel")
    = some generate_default_scenario := by
  cases hp : (readFile w "package.json").isSome with
  | true =>
    refine ⟨?_, ?_⟩
    · rw [ratel_init]
      simp only [hp, if_true]
    · rw [ratel_init]
      simp only [hp, if_true]
      exact readFile_writeFile _ w.files _ _
  | false =>
    refine ⟨?_, ?_⟩
    · rw [ratel_init]
      simp only [hp, if_false]
    · rw [ratel_init]
      simp only [hp, if_false]
      exact readFile_writeFile _ w.files _ _

/-- C10: every `ActionResult` the audit emits carries a `target` field
and its value is always `none` (serialized as JSON `null`): no code
path assigns a non-`None` value (main.rs:159,172 set it to `None`
unconditionally). -/
theorem C10_target_field_always_null (eng : Engine) (w : World)
    (path : String) (now : Nat) :
    ((resultsOf (execute_full_audit eng w path now).1).all
      (fun ar => ar.target == none)) = true := by
  rw [List.all_eq_true]
  intro ar har
  obtain ⟨c, hc⟩ := resultsOf_run eng w path now ar har
  subst hc
  simp [mkActionResult_target_none eng c]

end Ratel
